import Mathlib

/-!
Shallow embedding of `pmf/main.py` (class `PMF`): a biased low-rank matrix
factorization model trained by per-feature coordinate-descent SGD.

Machine floats are modelled by `ℚ`; the dense rating matrix `self.R`
(`self.R_sparse.todense()`) is a total function `Nat → Nat → ℚ` whose
unobserved entries are `0`, exactly as `todense()` fills them.  The known-pairs
index `zip(self.K_users, self.K_items)` is a list of `(u, i)` pairs.  All the
mutable attributes of the Python object (`b_u`, `b_i`, `q`, `p`, `sse`, ...)
live in one state structure `PMF.Model`, mirroring the single `self` object;
`log` is a ghost field recording each per-step error `err` as it is computed
(the "recorded step log" used to specify the `sse` accumulator) — no source
behaviour reads it.
-/

set_option autoImplicit false

namespace PMF

/-- The state of a `PMF` object: hyperparameters, immutable data (`R`, `K`,
`mu`) and the mutable training state (`b_u`, `b_i`, `q`, `p`, `sse`), plus the
ghost step log. -/
structure Model where
  f : Nat
  gamma : ℚ
  lambda_ : ℚ
  min_iter : Nat
  max_iter : Nat
  min_improvement : ℚ
  mu : ℚ
  R : Nat → Nat → ℚ
  K : List (Nat × Nat)
  b_u : Nat → ℚ
  b_i : Nat → ℚ
  q : Nat → Nat → ℚ
  p : Nat → Nat → ℚ
  sse : ℚ
  log : List ℚ

/-- `np.dot(self.q.T[i,:], self.p[:,u])`: sum over the `f` latent features of
`q[k,i] * p[k,u]`. -/
def dotQP (M : Model) (i u : Nat) : ℚ :=
  ((List.range M.f).map (fun k => M.q k i * M.p k u)).sum

/-- `np.linalg.norm(mat[:,j])**2` for an `f`-row matrix: sum of squared column
entries. -/
def normSqCol (mat : Nat → Nat → ℚ) (j f : Nat) : ℚ :=
  ((List.range f).map (fun k => (mat k j) ^ 2)).sum

/-- `PMF.get_rating`: `self.R[u,i]` on the dense matrix. -/
def get_rating (M : Model) (u i : Nat) : ℚ :=
  M.R u i

/-- `PMF.predict_rhat`: the raw linear combination
`mu + b_i[i] + b_u[u] + dot(q.T[i,:], p[:,u])`, then clamped by
`if r_hat > 5: 5 elif r_hat < 1: 1 else r_hat`. -/
def predict_rhat (M : Model) (u i : Nat) : ℚ :=
  let r_hat := M.mu + M.b_i i + M.b_u u + dotQP M i u
  if r_hat > 5 then 5 else if r_hat < 1 then 1 else r_hat

/-- `PMF.get_error`: `r - r_hat` with `r_hat` the clamped prediction. -/
def get_error (M : Model) (u i : Nat) : ℚ :=
  get_rating M u i - predict_rhat M u i

/-- `PMF.update`: the four assignment statements, executed in source order.
Each assignment reads the state left by the previous one, so the `p[f,u]`
assignment reads the value of `q[f,i]` written by the line just above it. -/
def update (M : Model) (u i f : Nat) (err : ℚ) : Model :=
  let M1 := { M with
    b_u := fun u' => if u' = u
      then M.b_u u + M.gamma * (err - M.lambda_ * M.b_u u) else M.b_u u' }
  let M2 := { M1 with
    b_i := fun i' => if i' = i
      then M1.b_i i + M1.gamma * (err - M1.lambda_ * M1.b_i i) else M1.b_i i' }
  let M3 := { M2 with
    q := fun g j => if g = f ∧ j = i
      then M2.q f i + M2.gamma * (err * M2.p f u - M2.lambda_ * M2.q f i)
      else M2.q g j }
  { M3 with
    p := fun g j => if g = f ∧ j = u
      then M3.p f u + M3.gamma * (err * M3.q f i - M3.lambda_ * M3.p f u)
      else M3.p g j }

/-- `PMF.compute_cost`: squared error of the subtractive
`r_hat_desc = mu - b_i[i] - b_u[u] - dot(q.T[i,:], p[:,u])` plus the
regularization term. -/
def compute_cost (M : Model) (u i : Nat) : ℚ :=
  let r := get_rating M u i
  let r_hat_desc := M.mu - M.b_i i - M.b_u u - dotQP M i u
  (r - r_hat_desc) ^ 2 + M.lambda_ *
    ((M.b_i i) ^ 2 + (M.b_u u) ^ 2 + normSqCol M.q i M.f + normSqCol M.p u M.f)

/-- One iteration of the inner `for u, i in zip(self.K_users, self.K_items)`
body: compute `err`, apply `update`, accumulate `self.sse += err**2` (and log
the step's error in the ghost log). -/
def trainStep (feature : Nat) (M : Model) (ui : Nat × Nat) : Model :=
  let err := get_error M ui.1 ui.2
  let M' := update M ui.1 ui.2 feature err
  { M' with sse := M'.sse + err ^ 2, log := M'.log ++ [err] }

/-- The whole inner pair loop of one epoch: fold `trainStep` over the
known-pairs list (fixed at loop entry, as Python's `zip` is). -/
def innerLoop (feature : Nat) (M : Model) : Model :=
  M.K.foldl (trainStep feature) M

/-- One epoch: run the pair loop, then `cost = self.compute_cost(u, i)` where
`u, i` are the loop variables after the loop, i.e. the last pair of `K`.
When `K` is empty the Python code stops with a `NameError` (`u`, `i` were
never bound): modelled as `none`. -/
def doEpoch (feature : Nat) (M : Model) : Option (Model × ℚ) :=
  let M' := innerLoop feature M
  match M.K.getLast? with
  | some (u, i) => some (M', compute_cost M' u i)
  | none => none

/-- The `for n in xrange(self.max_iter)` epoch loop for one feature, with the
remaining iteration budget as explicit fuel (`fuel + n = max_iter` at every
call from `featureLoop`).  Returns the running `cost`, the state, and the
number of epochs executed; the break is
`n >= self.min_iter and cost > cost_last - self.min_improvement`. -/
def epochLoop (feature : Nat) : Nat → Nat → ℚ → Model → Option (ℚ × Model × Nat)
  | 0, n, cost, M => some (cost, M, n)
  | fuel + 1, n, cost, M =>
    match doEpoch feature M with
    | none => none
    | some (M', cost') =>
      if M.min_iter ≤ n ∧ cost - M.min_improvement < cost' then
        some (cost', M', n + 1)
      else
        epochLoop feature fuel (n + 1) cost' M'

/-- The `for feature in xrange(self.f)` loop of `train`; the running `cost`
(initialized to `2.0` once, before the first feature) is threaded across
features. -/
def featureLoop : List Nat → ℚ → Model → Option Model
  | [], _, M => some M
  | feat :: rest, cost, M =>
    match epochLoop feat M.max_iter 0 cost M with
    | none => none
    | some (cost', M', _) => featureLoop rest cost' M'

/-- `PMF.train`: reset `self.sse = 0` (and the ghost log), set `cost = 2.0`,
run all features. -/
def train (M0 : Model) : Option Model :=
  featureLoop (List.range M0.f) 2 { M0 with sse := 0, log := [] }

/-- The square of `self.rmse = np.sqrt(self.sse / n_ratings)` computed at the
end of `train`, with `n_ratings = len(self.K_items)`.  When `n_ratings = 0`
the Python division raises (`np.seterr(all='raise')`): modelled as `none`. -/
def rmseSq (M0 : Model) : Option ℚ :=
  (train M0).bind (fun s =>
    if M0.K.length = 0 then none else some (s.sse / (M0.K.length : ℚ)))

/-- Sum of squares of a step log. -/
def sumSq (l : List ℚ) : ℚ :=
  (l.map (fun e => e ^ 2)).sum

/-!
### Baseline estimation (`_get_mu`, `get_baseline`) and the loader

`_get_mu(x)` is `np.nansum(x) / np.count_nonzero(~np.isnan(x)) or
self._get_mu(self.R)`.  The dense matrix holds no NaN (missing entries are
`0`), so `nansum` is the plain sum of all entries and the count is the total
number of entries of the slice.  Python's `or` returns the left operand when
it is truthy (a nonzero float) and otherwise evaluates the recursive call on
the full matrix `self.R`.  An empty slice divides `0` by `0`, which raises
under `np.seterr(all='raise')`: modelled as `none`.  The unbounded
self-recursion is modelled with explicit fuel: `none` means no value is
produced within that recursion depth.
-/

/-- `PMF._get_mu` with a matrix slice flattened to a list of its entries;
`Rflat` is the flattened full matrix `self.R` used by the `or` fallback. -/
def get_mu_fuel (Rflat : List ℚ) : Nat → List ℚ → Option ℚ
  | 0, _ => none
  | fuel + 1, x =>
    if x.length = 0 then none
    else
      let v := x.sum / (x.length : ℚ)
      if v = 0 then get_mu_fuel Rflat fuel Rflat else some v

/-- Row slice `self.R[u,:]` of a dense matrix given as a list of rows. -/
def row_of (R : List (List ℚ)) (u : Nat) : List ℚ :=
  R.getD u []

/-- Column slice `self.R[:,i]`. -/
def col_of (R : List (List ℚ)) (i : Nat) : List ℚ :=
  R.map (fun row => row.getD i 0)

/-- All entries of the dense matrix (`self.R` as one slice). -/
def flatR (R : List (List ℚ)) : List ℚ :=
  R.flatten

/-- `self.mu = self._get_mu(self.R)` in `get_baseline`. -/
def mu_of (R : List (List ℚ)) (fuel : Nat) : Option ℚ :=
  get_mu_fuel (flatR R) fuel (flatR R)

/-- `self.b_u[u] = self.mu - self._get_mu(self.R[u,:])` in `get_baseline`. -/
def b_u_of (R : List (List ℚ)) (fuel u : Nat) : Option ℚ :=
  (mu_of R fuel).bind (fun mu =>
    (get_mu_fuel (flatR R) fuel (row_of R u)).map (fun ru => mu - ru))

/-- `self.b_i[i] = self.mu - self._get_mu(self.R[:,i])` in `get_baseline`. -/
def b_i_of (R : List (List ℚ)) (fuel i : Nat) : Option ℚ :=
  (mu_of R fuel).bind (fun mu =>
    (get_mu_fuel (flatR R) fuel (col_of R i)).map (fun ci => mu - ci))

/-- `PMF._load_data`'s index conversion `ij -= 1`: 1-based `(user, item,
rating)` rows to 0-based triples. -/
def load_data (rows : List (Nat × Nat × ℚ)) : List (Nat × Nat × ℚ) :=
  rows.map (fun t => (t.1 - 1, t.2.1 - 1, t.2.2))

/-- `self.n = max(self.R_sparse.nonzero()[0]) + 1`: user count. -/
def nUsers (triples : List (Nat × Nat × ℚ)) : Nat :=
  (triples.map (fun t => t.1)).foldl max 0 + 1

/-- `self.m = max(self.R_sparse.nonzero()[1]) + 1`: item count. -/
def mItems (triples : List (Nat × Nat × ℚ)) : Nat :=
  (triples.map (fun t => t.2.1)).foldl max 0 + 1

/-- The known-pairs coordinates `R_sparse.nonzero()`: the triples with a
nonzero stored value. -/
def knownPairs (triples : List (Nat × Nat × ℚ)) : List (Nat × Nat) :=
  (triples.filter (fun t => decide (t.2.2 ≠ 0))).map (fun t => (t.1, t.2.1))

/-- The dense matrix `R_sparse.todense()` built from 0-based triples
(duplicate coordinates are summed, as `csc_matrix` does; absent ones are 0). -/
def denseR (triples : List (Nat × Nat × ℚ)) (n m : Nat) : List (List ℚ) :=
  (List.range n).map (fun u => (List.range m).map (fun i =>
    ((triples.filter (fun t => decide (t.1 = u ∧ t.2.1 = i))).map
      (fun t => t.2.2)).sum))

/-!
### The `hasattr` guard on the supplied factor matrices

`__init__` runs `if hasattr(self, 'p'): self.p = p else: <random init>` (and
the same for `'q'`).  `hasattr(self, a)` holds exactly when `a` is a method of
class `PMF` or an instance attribute already assigned at that point.
-/

/-- The attribute names `hasattr` can see on a fresh `PMF` object: the class's
methods. -/
def classAttrs : List String :=
  ["__init__", "get_rating", "predict_rhat", "_get_mu", "get_baseline",
   "update", "compute_cost", "get_error", "train", "_load_data"]

/-- Instance attributes assigned in `__init__` before the `p` branch runs. -/
def attrsBeforePInit : List String :=
  classAttrs ++ ["R_sparse", "R", "f", "gamma", "lambda_", "K_users",
    "K_items", "n", "m"]

/-- Instance attributes assigned before the `q` branch runs (`self.p` has just
been assigned by one of the two `p` branches). -/
def attrsBeforeQInit : List String :=
  attrsBeforePInit ++ ["p"]

/-- The factor-matrix initialization branch of `__init__`: the supplied
matrix when `hasattr(self, a)` holds, otherwise the random initialization. -/
def initFactor (attrs : List String) (a : String)
    (supplied rand : Nat → Nat → ℚ) : Nat → Nat → ℚ :=
  if attrs.contains a then supplied else rand

/-!
### Concrete inputs used by counterexamples and witnesses
-/

/-- A concrete one-feature model: `gamma = 1`, `lambda_ = 0`, all factor
entries `1`, both biases `0`, a single known pair `(0,0)` rated `2`. -/
def Mex : Model where
  f := 1
  gamma := 1
  lambda_ := 0
  min_iter := 0
  max_iter := 1
  min_improvement := 0
  mu := 0
  R := fun u i => if u = 0 ∧ i = 0 then 2 else 0
  K := [(0, 0)]
  b_u := fun _ => 0
  b_i := fun _ => 0
  q := fun _ _ => 1
  p := fun _ _ => 1
  sse := 0
  log := []

/-- The spec's round-trip scenario: the parsed rows of the 3-line file
`1\t1\t5`, `1\t2\t3`, `2\t1\t4`. -/
def exRows : List (Nat × Nat × ℚ) :=
  [(1, 1, 5), (1, 2, 3), (2, 1, 4)]

/-- The 0-based triples after `_load_data`'s `ij -= 1`. -/
def exTriples : List (Nat × Nat × ℚ) :=
  load_data exRows

/-- The dense matrix `todense()` of the round-trip scenario:
`[[5, 3], [4, 0]]`. -/
def exR : List (List ℚ) :=
  denseR exTriples (nUsers exTriples) (mItems exTriples)

/-- A dense matrix whose second user (row 1) has zero known ratings. -/
def exR2 : List (List ℚ) :=
  [[5, 3], [0, 0]]

/-- The flattened dense matrix of a 2×2 rating store with zero known
entries. -/
def zeroStoreFlat : List ℚ :=
  [0, 0, 0, 0]

/-!
### Helper lemmas
-/

/-- `update` leaves the `sse` accumulator untouched. -/
theorem update_sse (M : Model) (u i f : Nat) (err : ℚ) :
    (update M u i f err).sse = M.sse :=
  rfl

/-- `update` leaves the ghost step log untouched. -/
theorem update_log (M : Model) (u i f : Nat) (err : ℚ) :
    (update M u i f err).log = M.log :=
  rfl

/-- Appending one error to a step log adds its square to the log's sum of
squares. -/
theorem sumSq_append (l : List ℚ) (e : ℚ) :
    sumSq (l ++ [e]) = sumSq l + e ^ 2 := by
  simp [sumSq]

/-- A single pair step preserves "`sse` equals the sum of squared logged
errors". -/
theorem trainStep_inv (feature : Nat) (M : Model) (ui : Nat × Nat)
    (h : M.sse = sumSq M.log) :
    (trainStep feature M ui).sse = sumSq (trainStep feature M ui).log := by
  simp [trainStep, update_sse, update_log, sumSq_append, h]

/-- Folding pair steps preserves the `sse`/log invariant. -/
theorem foldl_trainStep_inv (feature : Nat) :
    ∀ (l : List (Nat × Nat)) (M : Model), M.sse = sumSq M.log →
      (l.foldl (trainStep feature) M).sse =
        sumSq ((l.foldl (trainStep feature) M)).log := by
  intro l
  induction l with
  | nil => intro M h; simpa using h
  | cons a t ih =>
    intro M h
    simp only [List.foldl_cons]
    exact ih _ (trainStep_inv feature M a h)

/-- The epoch's pair loop preserves the `sse`/log invariant. -/
theorem innerLoop_inv (feature : Nat) (M : Model) (h : M.sse = sumSq M.log) :
    (innerLoop feature M).sse = sumSq (innerLoop feature M).log :=
  foldl_trainStep_inv feature M.K M h

/-- `doEpoch` preserves the `sse`/log invariant. -/
theorem doEpoch_inv (feature : Nat) (M : Model) (h : M.sse = sumSq M.log)
    (M' : Model) (c : ℚ) (hE : doEpoch feature M = some (M', c)) :
    M'.sse = sumSq M'.log := by
  unfold doEpoch at hE
  cases hL : M.K.getLast? with
  | none => rw [hL] at hE; simp at hE
  | some ui =>
    obtain ⟨u, i⟩ := ui
    rw [hL] at hE
    simp only [Option.some.injEq, Prod.mk.injEq] at hE
    rw [← hE.1]
    exact innerLoop_inv feature M h

/-- The epoch loop preserves the `sse`/log invariant. -/
theorem epochLoop_inv (feature : Nat) :
    ∀ (fuel n : Nat) (cost : ℚ) (M : Model), M.sse = sumSq M.log →
      ∀ res, epochLoop feature fuel n cost M = some res →
        res.2.1.sse = sumSq res.2.1.log := by
  intro fuel
  induction fuel with
  | zero =>
    intro n cost M h res hE
    rw [epochLoop] at hE
    have := Option.some.inj hE
    subst this
    exact h
  | succ k ih =>
    intro n cost M h res hE
    rw [epochLoop] at hE
    split at hE
    next => exact absurd hE (by simp)
    next M' c hD =>
      have hM' : M'.sse = sumSq M'.log := doEpoch_inv feature M h M' c hD
      split_ifs at hE with hc
      · have := Option.some.inj hE
        subst this
        exact hM'
      · exact ih (n + 1) c M' hM' res hE

/-- The feature loop preserves the `sse`/log invariant. -/
theorem featureLoop_inv :
    ∀ (feats : List Nat) (cost : ℚ) (M : Model), M.sse = sumSq M.log →
      ∀ s, featureLoop feats cost M = some s → s.sse = sumSq s.log := by
  intro feats
  induction feats with
  | nil =>
    intro cost M h s hE
    rw [featureLoop] at hE
    have := Option.some.inj hE
    subst this
    exact h
  | cons f0 rest ih =>
    intro cost M h s hE
    rw [featureLoop] at hE
    cases hL : epochLoop f0 M.max_iter 0 cost M with
    | none => rw [hL] at hE; simp at hE
    | some res =>
      obtain ⟨cost', M', k⟩ := res
      rw [hL] at hE
      exact ih cost' M'
        (epochLoop_inv f0 M.max_iter 0 cost M h (cost', M', k) hL) s hE

/-- Any successful run of the epoch loop executes at most `n + fuel` epochs
when started at epoch index `n` with `fuel` remaining iterations. -/
theorem epochLoop_count_le (feature : Nat) :
    ∀ (fuel n : Nat) (cost : ℚ) (M : Model) (res : ℚ × Model × Nat),
      epochLoop feature fuel n cost M = some res → res.2.2 ≤ n + fuel := by
  intro fuel
  induction fuel with
  | zero =>
    intro n cost M res hE
    rw [epochLoop] at hE
    have := Option.some.inj hE
    subst this
    show n ≤ n + 0
    omega
  | succ k ih =>
    intro n cost M res hE
    rw [epochLoop] at hE
    split at hE
    next => exact absurd hE (by simp)
    next M' c hD =>
      split_ifs at hE with hc
      · have := Option.some.inj hE
        subst this
        show n + 1 ≤ n + (k + 1)
        omega
      · have := ih (n + 1) c M' res hE
        omega

/-!
### The claims
-/

/-- C1 (counterexample): with `gamma = 1`, `lambda_ = 0`, pre-step
`q[0,0] = p[0,0] = 1` and `err = 1`, the step writes `p[0,0] = 3`, whereas
computing the `p` update from the pre-step `q[0,0]` snapshot would give `2`:
the claim's snapshot semantics is refuted at this input. -/
theorem c1_counterexample :
    (update Mex 0 0 0 1).p 0 0 = 3 ∧
    Mex.p 0 0 + Mex.gamma * ((1 : ℚ) * Mex.q 0 0 - Mex.lambda_ * Mex.p 0 0) = 2 ∧
    (update Mex 0 0 0 1).p 0 0 ≠
      Mex.p 0 0 + Mex.gamma * ((1 : ℚ) * Mex.q 0 0 - Mex.lambda_ * Mex.p 0 0) := by
  refine ⟨?_, ?_, ?_⟩ <;> simp [update, Mex] <;> norm_num

/-- C1 (amended): in a single `update` step the new `q[f,i]` is computed from
the pre-step `q[f,i]` and `p[f,u]`, but the new `p[f,u]` is computed from the
freshly written `q[f,i]` (a Gauss–Seidel cascade within the step) together
with the pre-step `p[f,u]`. -/
theorem c1_update_order (M : Model) (u i f : Nat) (err : ℚ) :
    (update M u i f err).q f i =
      M.q f i + M.gamma * (err * M.p f u - M.lambda_ * M.q f i) ∧
    (update M u i f err).p f u =
      M.p f u + M.gamma *
        (err * (update M u i f err).q f i - M.lambda_ * M.p f u) := by
  constructor <;> simp [update]

/-- C2: on the 3-line round-trip file the code yields `n = 2` users, `m = 2`
items and `|K| = 3` known pairs as the claim says, but `_get_mu` on the
zero-filled dense matrix `[[5, 3], [4, 0]]` returns `12 / 4 = 3`, not the
mean `4` of the known ratings: the missing entry is counted in the
denominator. -/
theorem c2_mu_eval :
    nUsers exTriples = 2 ∧ mItems exTriples = 2 ∧
    (knownPairs exTriples).length = 3 ∧
    (∀ fuel, mu_of exR (fuel + 1) = some 3) ∧ (3 : ℚ) ≠ 4 := by
  refine ⟨by decide, by decide, by decide, ?_, by norm_num⟩
  intro fuel
  have hn : nUsers exTriples = 2 := by decide
  have hm : mItems exTriples = 2 := by decide
  have hflat : flatR exR = [5, 3, 4, 0] := by
    simp only [exR, hn, hm]
    simp [flatR, denseR, exTriples, load_data, exRows, List.range_succ]
  rw [mu_of, hflat, get_mu_fuel]
  norm_num

/-- C3: the `hasattr(self, 'p')` / `hasattr(self, 'q')` guards are evaluated
before `self.p` / `self.q` exist, so for every supplied matrix the random
initialization is chosen: the supplied pretrained state is always
discarded. -/
theorem c3_supplied_ignored :
    ∀ supplied rand : Nat → Nat → ℚ,
      initFactor attrsBeforePInit "p" supplied rand = rand ∧
      initFactor attrsBeforeQInit "q" supplied rand = rand :=
  fun _ _ => ⟨rfl, rfl⟩

/-- C4: on a rating store with zero known entries (all-zero dense matrix),
`_get_mu` yields `0`, which is falsy, so the `or` fallback re-invokes
`_get_mu` on the same full matrix: at every recursion depth no value is
produced — the recursion never terminates with a result, and no
`DegenerateInputError` is raised. -/
theorem c4_mu_diverges :
    ∀ fuel, get_mu_fuel zeroStoreFlat fuel zeroStoreFlat = none := by
  intro fuel
  induction fuel with
  | zero => rfl
  | succ k ih => simpa [get_mu_fuel, zeroStoreFlat] using ih

/-- C5: for every model state and every pair, `predict_rhat` lies in `[1, 5]`
and equals the raw linear combination
`mu + b_i[i] + b_u[u] + dot(q[:,i], p[:,u])` clamped to `lo = 1`, `hi = 5`. -/
theorem c5_predict_clamped (M : Model) (u i : Nat) :
    1 ≤ predict_rhat M u i ∧ predict_rhat M u i ≤ 5 ∧
    predict_rhat M u i =
      max 1 (min 5 (M.mu + M.b_i i + M.b_u u + dotQP M i u)) := by
  simp only [predict_rhat]
  split_ifs with h1 h2
  · exact ⟨by norm_num, le_refl 5,
      by rw [min_eq_left h1.le, max_eq_right (by norm_num : (1 : ℚ) ≤ 5)]⟩
  · exact ⟨le_refl 1, by norm_num,
      by rw [min_eq_right (by linarith), max_eq_left h2.le]⟩
  · push_neg at h1 h2
    exact ⟨h2, h1, by rw [min_eq_right h1, max_eq_right h2]⟩

/-- C6: on the round-trip file the row-mean of user 1 (known ratings `{4}`,
row `[4, 0]`) is computed as `4 / 2 = 2` — divided by the total column count,
missing entry included — so `b_u[1] = 3 - 2 = 1`, not `mu` minus the known
mean `4` (which would be `3 - 4 = -1`).  The zero-known-row part of the claim
does hold: in a matrix whose row 1 has no known ratings the falsy-`or`
fallback yields the global mean, giving bias `0`. -/
theorem c6_bias_eval :
    (∀ fuel, b_u_of exR (fuel + 1) 1 = some 1) ∧
    row_of exR 1 = [4, 0] ∧
    (1 : ℚ) ≠ 3 - 4 ∧
    (∀ fuel, b_u_of exR2 (fuel + 2) 1 = some 0) := by
  have hn : nUsers exTriples = 2 := by decide
  have hm : mItems exTriples = 2 := by decide
  have hrow : row_of exR 1 = [4, 0] := by
    simp only [exR, hn, hm]
    simp [row_of, denseR, exTriples, load_data, exRows, List.range_succ]
  refine ⟨?_, hrow, by norm_num, ?_⟩
  · intro fuel
    have hflat : flatR exR = [5, 3, 4, 0] := by
      simp only [exR, hn, hm]
      simp [flatR, denseR, exTriples, load_data, exRows, List.range_succ]
    rw [b_u_of, mu_of, hflat, hrow, get_mu_fuel]
    norm_num
    rw [get_mu_fuel]
    norm_num
  · intro fuel
    have hflat : flatR exR2 = [5, 3, 0, 0] := by
      simp [flatR, exR2]
    have hrow2 : row_of exR2 1 = [0, 0] := by
      simp [row_of, exR2]
    rw [b_u_of, mu_of, hflat, hrow2, get_mu_fuel]
    norm_num
    rw [get_mu_fuel]
    norm_num
    rw [get_mu_fuel]
    norm_num

/-- C7: the per-feature epoch loop executes at most `max_iter` epochs; with
fuel remaining it stops after epoch `n` exactly when `n ≥ min_iter` and the
new cost exceeds `cost_last - min_improvement`, and otherwise continues with
the next epoch; exhausted fuel ends the loop. -/
theorem c7_epoch_termination :
    (∀ (M : Model) (feature : Nat) (cost : ℚ),
      ((epochLoop feature M.max_iter 0 cost M).map
        (fun r => r.2.2)).getD 0 ≤ M.max_iter) ∧
    (∀ (feature fuel n : Nat) (cost : ℚ) (M : Model),
      epochLoop feature (fuel + 1) n cost M =
        match doEpoch feature M with
        | none => none
        | some (M', cost') =>
          if M.min_iter ≤ n ∧ cost - M.min_improvement < cost' then
            some (cost', M', n + 1)
          else epochLoop feature fuel (n + 1) cost' M') ∧
    (∀ (feature n : Nat) (cost : ℚ) (M : Model),
      epochLoop feature 0 n cost M = some (cost, M, n)) := by
  refine ⟨?_, fun _ _ _ _ _ => rfl, fun _ _ _ _ => rfl⟩
  intro M feature cost
  cases h : epochLoop feature M.max_iter 0 cost M with
  | none => simp
  | some res =>
    have := epochLoop_count_le feature M.max_iter 0 cost M res h
    simpa using this

/-- C8: `train` keeps one `sse` accumulator for the entire call: the final
`sse` equals the sum of the squared errors of every per-pair gradient step
executed (the ghost log records each step's error across all features, all
epochs and all pairs), and `rmse² = sse / |K|` is computed once from that
final total. -/
theorem c8_sse_accumulator (M0 : Model) :
    (train M0).map Model.sse = (train M0).map (fun s => sumSq s.log) ∧
    rmseSq M0 = (train M0).bind (fun s =>
      if M0.K.length = 0 then none
      else some (sumSq s.log / (M0.K.length : ℚ))) := by
  have key : ∀ s, train M0 = some s → s.sse = sumSq s.log := by
    intro s hs
    exact featureLoop_inv (List.range M0.f) 2
      { M0 with sse := 0, log := [] } (by simp [sumSq]) s hs
  cases h : train M0 with
  | none => simp [rmseSq, h]
  | some s =>
    have hk := key s h
    exact ⟨by simp [h, hk], by simp [rmseSq, h, hk]⟩

/-- C9: each epoch's convergence cost is `compute_cost` evaluated, in the
state left by the pair loop, at the single last pair of `K` (no averaging),
and it unfolds to `(r - r̂)² + λ·(b_i[i]² + b_u[u]² + ‖q[:,i]‖² + ‖p[:,u]‖²)`
with the subtractive `r̂ = mu - b_i[i] - b_u[u] - dot(q[:,i], p[:,u])`. -/
theorem c9_epoch_cost (M : Model) (feature : Nat) :
    doEpoch feature M =
      match M.K.getLast? with
      | some (u, i) =>
        some (innerLoop feature M,
          (get_rating (innerLoop feature M) u i -
            ((innerLoop feature M).mu - (innerLoop feature M).b_i i -
              (innerLoop feature M).b_u u - dotQP (innerLoop feature M) i u)) ^ 2 +
          (innerLoop feature M).lambda_ *
            (((innerLoop feature M).b_i i) ^ 2 +
              ((innerLoop feature M).b_u u) ^ 2 +
              normSqCol (innerLoop feature M).q i (innerLoop feature M).f +
              normSqCol (innerLoop feature M).p u (innerLoop feature M).f))
      | none => none := by
  cases hL : M.K.getLast? with
  | none => simp [doEpoch, hL]
  | some ui =>
    obtain ⟨u, i⟩ := ui
    simp [doEpoch, compute_cost, get_rating, hL]

/-- C10: one `update(u, i, f, err)` call changes only the four scalars
`b_u[u]`, `b_i[i]`, `q[f,i]`, `p[f,u]`; every other entry of the biases and
factor matrices, and the fields `R`, `K`, `mu`, `gamma`, `lambda_`, `f`,
`min_iter`, `max_iter`, `min_improvement`, `sse` and the step log, are left
unchanged. -/
theorem c10_update_frame (M : Model) (u i f : Nat) (err : ℚ)
    (u' i' gq jq gp jp : Nat) (hu : u' ≠ u) (hi : i' ≠ i)
    (hq : ¬(gq = f ∧ jq = i)) (hp : ¬(gp = f ∧ jp = u)) :
    (update M u i f err).b_u u' = M.b_u u' ∧
    (update M u i f err).b_i i' = M.b_i i' ∧
    (update M u i f err).q gq jq = M.q gq jq ∧
    (update M u i f err).p gp jp = M.p gp jp ∧
    (update M u i f err).R = M.R ∧
    (update M u i f err).K = M.K ∧
    (update M u i f err).mu = M.mu ∧
    (update M u i f err).gamma = M.gamma ∧
    (update M u i f err).lambda_ = M.lambda_ ∧
    (update M u i f err).f = M.f ∧
    (update M u i f err).min_iter = M.min_iter ∧
    (update M u i f err).max_iter = M.max_iter ∧
    (update M u i f err).min_improvement = M.min_improvement ∧
    (update M u i f err).sse = M.sse ∧
    (update M u i f err).log = M.log := by
  refine ⟨?_, ?_, ?_, ?_, rfl, rfl, rfl, rfl, rfl, rfl, rfl, rfl, rfl, rfl, rfl⟩ <;>
    simp [update, hu, hi, hq, hp]

/-- C10 (witness): the frame property instantiated at the concrete model
`Mex` with the step `update(u = 0, i = 1, f = 0, err = 1)`, checked at the
untouched bias entries `u' = 1`, `i' = 0` and, in the factor matrices, at the
entries `q[f,u] = q[0,0]` and `p[f,i] = p[0,1]` — entries that sit at the
written feature row but at the other matrix's written column, which the step
must leave unchanged. -/
theorem c10_update_frame_witness :
    (update Mex 0 1 0 1).b_u 1 = Mex.b_u 1 ∧
    (update Mex 0 1 0 1).b_i 0 = Mex.b_i 0 ∧
    (update Mex 0 1 0 1).q 0 0 = Mex.q 0 0 ∧
    (update Mex 0 1 0 1).p 0 1 = Mex.p 0 1 ∧
    (update Mex 0 1 0 1).R = Mex.R ∧
    (update Mex 0 1 0 1).K = Mex.K ∧
    (update Mex 0 1 0 1).mu = Mex.mu ∧
    (update Mex 0 1 0 1).gamma = Mex.gamma ∧
    (update Mex 0 1 0 1).lambda_ = Mex.lambda_ ∧
    (update Mex 0 1 0 1).f = Mex.f ∧
    (update Mex 0 1 0 1).min_iter = Mex.min_iter ∧
    (update Mex 0 1 0 1).max_iter = Mex.max_iter ∧
    (update Mex 0 1 0 1).min_improvement = Mex.min_improvement ∧
    (update Mex 0 1 0 1).sse = Mex.sse ∧
    (update Mex 0 1 0 1).log = Mex.log :=
  c10_update_frame Mex 0 1 0 1 1 0 0 0 0 1 (by decide) (by decide) (by decide)
    (by decide)

end PMF
